import Mathlib

/-!
Shallow embedding of `src/metaphor_analyzer.py` (classes `MetaphorOntology`
and `MetaphorAnalyzer`) and verification of the specification's claims about
it.  Python strings are modelled as Lean `String`, Python floats as `ℚ`
(the constants involved are all exact decimals), Python's substring test
`needle in hay` as infix search on the character lists, and Python's stable
`list.sort(key=..., reverse=True)` as a stable descending insertion sort.
-/

namespace MetaphorAnalysis

/-- Python's `str.lower()`, restricted to the alphabets that occur in the
ontology and inputs of this program: ASCII letters and the Cyrillic block
А–Я (U+0410–U+042F) plus Ё.  All other characters are left unchanged. -/
def pyLower (c : Char) : Char :=
  if 'A' ≤ c ∧ c ≤ 'Z' then Char.ofNat (c.toNat + 32)
  else if 'А' ≤ c ∧ c ≤ 'Я' then Char.ofNat (c.toNat + 32)
  else if c = 'Ё' then 'ё'
  else c

/-- `text.lower()` applied to a whole string. -/
def lowerStr (s : String) : String :=
  String.mk (s.data.map pyLower)

/-- Python's substring test `needle in hay`. -/
def inStr (needle hay : String) : Bool :=
  decide (needle.data <:+: hay.data)

/-- Helper for `splitWs`: accumulates the current word (reversed). -/
def splitWsAux : List Char → List Char → List (List Char)
  | [], acc => if acc.isEmpty then [] else [acc.reverse]
  | c :: rest, acc =>
      if c.isWhitespace then
        if acc.isEmpty then splitWsAux rest []
        else acc.reverse :: splitWsAux rest []
      else splitWsAux rest (c :: acc)

/-- Python's `str.split()` with no argument: split on whitespace runs,
discarding empty fragments. -/
def splitWs (s : String) : List String :=
  (splitWsAux s.data []).map String.mk

/-- `phrase.lower().split()` as used on ontology phrases. -/
def tokensOf (phrase : String) : List String :=
  splitWs (lowerStr phrase)

/-- `sum(kw in text_lower for kw in phrase.lower().split())`: the number of
tokens of the phrase that occur as substrings of the lowered text. -/
def matchCount (text_lower phrase : String) : Nat :=
  (tokensOf phrase).countP (fun kw => inStr kw text_lower)

/-- Enum `MetaphorLevel` from the source. -/
inductive MetaphorLevel where
  | EXPLICIT_TERM
  | SCIENTIFIC_METAPHOR
  | META_METAPHOR
  | NESTED_METAPHOR
  deriving DecidableEq, Repr

/-- `MetaphorLevel.value` (the Python enum's string payload). -/
def MetaphorLevel.value : MetaphorLevel → String
  | .EXPLICIT_TERM => "explicit_term"
  | .SCIENTIFIC_METAPHOR => "scientific_metaphor"
  | .META_METAPHOR => "meta_metaphor"
  | .NESTED_METAPHOR => "nested_metaphor"

/-- Enum `MetaphorType` from the source. -/
inductive MetaphorType where
  | ONTOLOGICAL
  | STRUCTURAL
  | ORIENTATIONAL
  | DECORATIVE
  deriving DecidableEq, Repr

/-- `MetaphorType.value`. -/
def MetaphorType.value : MetaphorType → String
  | .ONTOLOGICAL => "ontological"
  | .STRUCTURAL => "structural"
  | .ORIENTATIONAL => "orientational"
  | .DECORATIVE => "decorative"

/-- Dataclass `MetaphorEvidence` from the source. -/
structure MetaphorEvidence where
  span : String
  theory_class : String
  level : MetaphorLevel
  type : MetaphorType
  weight : ℚ
  semantic_field : String
  source_domain : String
  target_domain : String := "consciousness"
  reasoning : String := ""
  related_metaphors : List String := []
  deriving DecidableEq, Repr

/-- One entry of the `MetaphorOntology` tables. -/
structure DomainEntry where
  keywords : List String
  scientific_metaphors : List String
  artistic_transformations : List String
  theory : String
  deriving DecidableEq, Repr

/-- `MetaphorOntology.COMPUTATIONAL`. -/
def COMPUTATIONAL : DomainEntry where
  keywords := [
    "алгоритм", "вычисление", "процессор", "программа", "код",
    "input", "output", "обработка", "computation", "function",
    "символ", "репрезентация", "информация"]
  scientific_metaphors := [
    "мозг как компьютер", "сознание как программное обеспечение",
    "разум как машина Тьюринга", "мышление как вычисление"]
  artistic_transformations := [
    "данные как материал", "алгоритм как художник",
    "код как язык искусства", "нейросеть как сознание"]
  theory := "COMP"

/-- `MetaphorOntology.IIT`. -/
def IIT : DomainEntry where
  keywords := [
    "интеграция", "целостность", "несводимость", "phi", "квалиа",
    "integration", "irreducibility", "quale", "субъективность",
    "внутренняя перспектива", "феноменальное"]
  scientific_metaphors := [
    "сознание как интегрированная информация",
    "опыт как неделимое целое", "phi как мера сознания"]
  artistic_transformations := [
    "единство противоположностей", "неделимый образ",
    "целое больше суммы частей", "интегрированное восприятие"]
  theory := "IIT"

/-- `MetaphorOntology.PRED`. -/
def PRED : DomainEntry where
  keywords := [
    "предсказание", "прогноз", "ошибка", "байесовский", "prior",
    "prediction", "error", "bayesian", "free energy", "минимизация",
    "неопределённость", "вероятность", "модель мира"]
  scientific_metaphors := [
    "мозг как байесовский предсказатель",
    "сознание как минимизация свободной энергии",
    "восприятие как контролируемая галлюцинация"]
  artistic_transformations := [
    "ожидание vs реальность", "генеративные модели как творчество",
    "предвосхищение образа", "синтез восприятия"]
  theory := "PRED"

/-- `MetaphorOntology.GWT`. -/
def GWT : DomainEntry where
  keywords := [
    "внимание", "рабочее пространство", "broadcast", "театр",
    "spotlight", "awareness", "доступ", "глобальный",
    "конкуренция", "селекция", "фокус"]
  scientific_metaphors := [
    "сознание как театр разума", "внимание как прожектор",
    "осознание как трансляция информации"]
  artistic_transformations := [
    "сцена восприятия", "фокус внимания",
    "выбор образа", "освещение смысла"]
  theory := "GWT"

/-- `MetaphorOntology.ENACT`. -/
def ENACT : DomainEntry where
  keywords := [
    "телесность", "воплощение", "действие", "сенсомоторный",
    "embodied", "enacted", "sensorimotor", "петля",
    "взаимодействие", "среда", "coupling", "движение"]
  scientific_metaphors := [
    "познание как действие", "разум как воплощённый процесс",
    "сознание через телесность"]
  artistic_transformations := [
    "тело как медиум", "жест как мысль",
    "движение как познание", "материальность разума"]
  theory := "ENACT"

/-- `MetaphorOntology.PAN`. -/
def PAN : DomainEntry where
  keywords := [
    "протоопыт", "панпсихизм", "одушевление", "всеобщность",
    "protophenomenal", "panpsychism", "универсальность",
    "материя чувствует", "внутренняя жизнь", "анимизм"]
  scientific_metaphors := [
    "материя как чувствующая", "протоквалиа в элементах",
    "сознание как фундаментальное свойство"]
  artistic_transformations := [
    "живая материя", "одушевлённые объекты",
    "чувствующие системы", "агентность материала"]
  theory := "PAN"

/-- `MetaphorOntology.EMERG`. -/
def EMERG : DomainEntry where
  keywords := [
    "эмерджентность", "самоорганизация", "сложность", "рой",
    "emergence", "self-organization", "swarm", "collective",
    "фазовый переход", "новое качество", "синергия"]
  scientific_metaphors := [
    "сознание как эмерджентное свойство",
    "разум как самоорганизующаяся система", "коллективный интеллект"]
  artistic_transformations := [
    "роевой разум", "коллективное творчество",
    "спонтанный порядок", "множественность в единстве"]
  theory := "EMERG"

/-- `MetaphorOntology.get_all_domains()`: the ontology as an insertion-ordered
mapping (Python dicts preserve insertion order). -/
def get_all_domains : List (String × DomainEntry) :=
  [("COMP", COMPUTATIONAL), ("IIT", IIT), ("PRED", PRED), ("GWT", GWT),
   ("ENACT", ENACT), ("PAN", PAN), ("EMERG", EMERG)]

/-- `detect_metaphor_level(text, keywords, scientific_metaphors,
artistic_transformations)`: strict four-step precedence, first match wins.
A phrase passes step 2/3 when at least `len(tokens) // 2` of its tokens
(floor division) occur in the lowered text. -/
def detect_metaphor_level (text : String) (keywords scientific_metaphors
    artistic_transformations : List String) : MetaphorLevel × String :=
  match keywords.find? (fun keyword => inStr (lowerStr keyword) (lowerStr text)) with
  | some keyword => (.EXPLICIT_TERM, keyword)
  | none =>
    match scientific_metaphors.find? (fun metaphor =>
        (tokensOf metaphor).length / 2 ≤ matchCount (lowerStr text) metaphor) with
    | some metaphor => (.SCIENTIFIC_METAPHOR, metaphor)
    | none =>
      match artistic_transformations.find? (fun transformation =>
          (tokensOf transformation).length / 2
            ≤ matchCount (lowerStr text) transformation) with
      | some transformation => (.META_METAPHOR, transformation)
      | none => (.NESTED_METAPHOR, "")

/-- The `score` accumulated by the three loops of `identify_semantic_field`
for one domain: sequential fold over keywords (+0.15 each when present),
then scientific metaphors (+0.3 * match ratio when at least 2 tokens match),
then artistic transformations (+0.5 * match ratio, same rule). -/
def domainScore (text_lower : String) (d : DomainEntry) : ℚ :=
  let s1 : ℚ := d.keywords.foldl
    (fun s keyword => if inStr (lowerStr keyword) text_lower then s + 15/100 else s) 0
  let s2 : ℚ := d.scientific_metaphors.foldl
    (fun s metaphor =>
      if 2 ≤ matchCount text_lower metaphor then
        s + 3/10 * ((matchCount text_lower metaphor : ℚ) / ((tokensOf metaphor).length : ℚ))
      else s) s1
  d.artistic_transformations.foldl
    (fun s transformation =>
      if 2 ≤ matchCount text_lower transformation then
        s + 5/10 * ((matchCount text_lower transformation : ℚ) / ((tokensOf transformation).length : ℚ))
      else s) s2

/-- The `matched_keywords` list accumulated by the same three loops (each
loop appends the items it scores, in order). -/
def domainMatched (text_lower : String) (d : DomainEntry) : List String :=
  d.keywords.filter (fun keyword => inStr (lowerStr keyword) text_lower)
  ++ d.scientific_metaphors.filter (fun metaphor => 2 ≤ matchCount text_lower metaphor)
  ++ d.artistic_transformations.filter (fun transformation =>
       2 ≤ matchCount text_lower transformation)

/-- `", ".join(matched_keywords[:3])`. -/
def semanticFieldLabel (text_lower : String) (d : DomainEntry) : String :=
  String.intercalate ", " ((domainMatched text_lower d).take 3)

/-- `identify_semantic_field(text)`: per-theory scores (only theories with
positive score, score capped at `1.0`), sorted descending by score.
Python's stable `results.sort(key=lambda x: x[1], reverse=True)` is modelled
by a stable insertion sort with the descending comparison. -/
def identify_semantic_field (text : String) : List (String × ℚ × String) :=
  let text_lower := lowerStr text
  let results := get_all_domains.filterMap (fun td =>
    let score := domainScore text_lower td.2
    if 0 < score then
      some (td.1, min score 1, semanticFieldLabel text_lower td.2)
    else none)
  List.insertionSort (fun a b : String × ℚ × String => b.2.1 ≤ a.2.1) results

/-- The `ontological_markers` list of `determine_metaphor_type`. -/
def ontological_markers : List String :=
  ["сознание", "разум", "мышление", "познание", "опыт",
   "consciousness", "mind", "thinking", "cognition", "experience",
   "субъективность", "квалиа", "осознание", "awareness",
   "природа", "сущность", "механизм", "nature", "essence"]

/-- The `structural_markers` list. -/
def structural_markers : List String :=
  ["архитектура", "структура", "слои", "уровни", "модули",
   "architecture", "structure", "layers", "levels", "modules",
   "организация", "иерархия", "система", "organization"]

/-- The `orientational_markers` list. -/
def orientational_markers : List String :=
  ["внутри", "снаружи", "верх", "низ", "глубина", "поверхность",
   "inside", "outside", "up", "down", "depth", "surface",
   "центр", "периферия", "пространство", "время"]

/-- `determine_metaphor_type(text, span)`: ontological markers are checked
against the full lowered text, structural and orientational markers against
the lowered span only; first category wins, default decorative. -/
def determine_metaphor_type (text span : String) : MetaphorType :=
  if ontological_markers.any (fun marker => inStr marker (lowerStr text)) then
    .ONTOLOGICAL
  else if structural_markers.any (fun marker => inStr marker (lowerStr span)) then
    .STRUCTURAL
  else if orientational_markers.any (fun marker => inStr marker (lowerStr span)) then
    .ORIENTATIONAL
  else .DECORATIVE

/-- The `level_weights` table of `calculate_metaphor_weight` (every level is
a key, so the `.get(level, 0.4)` default is never used). -/
def level_weight : MetaphorLevel → ℚ
  | .EXPLICIT_TERM => 1
  | .SCIENTIFIC_METAPHOR => 7/10
  | .META_METAPHOR => 8/10
  | .NESTED_METAPHOR => 5/10

/-- The `type_multipliers` table (again total, `.get(type, 0.5)` never
falls through). -/
def type_multiplier : MetaphorType → ℚ
  | .ONTOLOGICAL => 12/10
  | .STRUCTURAL => 1
  | .ORIENTATIONAL => 8/10
  | .DECORATIVE => 3/10

/-- `calculate_metaphor_weight(level, metaphor_type, context_relevance)`
(the Python default `context_relevance=1.0` is simply passed explicitly by
every caller in this development). -/
def calculate_metaphor_weight (level : MetaphorLevel) (metaphor_type : MetaphorType)
    (context_relevance : ℚ) : ℚ :=
  min (level_weight level * type_multiplier metaphor_type * context_relevance) 1

/-- `field.split(',')[0]`: the prefix of the string before its first comma
(the whole string when it has no comma). -/
def beforeComma (s : String) : String :=
  String.mk (s.data.takeWhile (fun c => c ≠ ','))

/-- Dict lookup `self.ontology[theory]`; total with a vacuous default entry
(every theory reaching this lookup is a key of the ontology). -/
def domainOf (theory : String) : DomainEntry :=
  ((get_all_domains.lookup theory).getD ⟨[], [], [], ""⟩)

/-- The body of the loop of `extract_metaphors` for one
`(theory, score, field)` triple of `identify_semantic_field`: skip scores
below `0.2`, run level detection, skip an empty span at nested level,
classify the type, calculate the weight and package the evidence record. -/
def evidenceFor (text : String) (tsf : String × ℚ × String) :
    Option MetaphorEvidence :=
  let theory := tsf.1
  let score := tsf.2.1
  let fld := tsf.2.2
  if score < 2/10 then none
  else
    let d := domainOf theory
    let lm := detect_metaphor_level text d.keywords d.scientific_metaphors
      d.artistic_transformations
    let level := lm.1
    let matched_text := lm.2
    if matched_text = "" ∧ level = MetaphorLevel.NESTED_METAPHOR then none
    else
      let metaphor_type := determine_metaphor_type text matched_text
      let weight := calculate_metaphor_weight level metaphor_type score
      some { span := matched_text
             theory_class := theory
             level := level
             type := metaphor_type
             weight := weight
             semantic_field := fld
             source_domain := if fld = "" then "" else beforeComma fld
             reasoning := level.value ++ " в " ++ metaphor_type.value ++ " контексте" }

/-- `extract_metaphors(text)`: for each theory of `identify_semantic_field`
(in descending-score order), emit the evidence record of `evidenceFor`
when one is produced. -/
def extract_metaphors (text : String) : List MetaphorEvidence :=
  (identify_semantic_field text).filterMap (evidenceFor text)

/-- The insertion-ordered keys of the `theory_clusters` dict built by
`analyze_metaphor_network`: distinct theories in order of first occurrence
in the evidence list. -/
def clusterKeys : List String → List String
  | [] => []
  | t :: ts => t :: (clusterKeys ts).filter (fun u => u ≠ t)

/-- The evidence group of one theory (a dict bucket preserves the order of
the evidence sequence, so it is the filter of the list by that theory). -/
def clusterOf (evidence_list : List MetaphorEvidence) (theory : String) :
    List MetaphorEvidence :=
  evidence_list.filter (fun e => e.theory_class = theory)

/-- `sum(e.weight for e in cluster)`. -/
def totalWeight (evidence_list : List MetaphorEvidence) (theory : String) : ℚ :=
  ((clusterOf evidence_list theory).map (fun e => e.weight)).sum

/-- One `cluster_analysis` record of `analyze_metaphor_network`.  Python's
`list(set(...))` for `semantic_fields` has no guaranteed order; it is
modelled as the distinct values in order of first occurrence. -/
structure ClusterAnalysis where
  total_evidence : Nat
  meta_metaphor_count : Nat
  scientific_metaphor_count : Nat
  ontological_count : Nat
  total_weight : ℚ
  semantic_fields : List String
  deriving DecidableEq, Repr

/-- Build the `cluster_analysis` of one theory's bucket. -/
def mkClusterAnalysis (evidences : List MetaphorEvidence) : ClusterAnalysis where
  total_evidence := evidences.length
  meta_metaphor_count :=
    (evidences.filter (fun e => e.level = MetaphorLevel.META_METAPHOR)).length
  scientific_metaphor_count :=
    (evidences.filter (fun e => e.level = MetaphorLevel.SCIENTIFIC_METAPHOR)).length
  ontological_count :=
    (evidences.filter (fun e => e.type = MetaphorType.ONTOLOGICAL)).length
  total_weight := (evidences.map (fun e => e.weight)).sum
  semantic_fields := clusterKeys (evidences.map (fun e => e.semantic_field))

/-- The result record of `analyze_metaphor_network`. -/
structure NetworkAnalysis where
  clusters : List (String × ClusterAnalysis)
  meta_metaphor_detected : Bool
  dominant_pattern : Option String
  hybrid_theories : List String
  deriving DecidableEq, Repr

/-- `analyze_metaphor_network(evidence_list)`: group by theory, flag the
meta-metaphor pattern when some bucket holds both a meta-metaphor and a
scientific-metaphor record, pick the dominant theory as Python's `max` does
(first bucket of maximal total weight, insertion order), and report the
theories of total weight at least `0.5` when more than one qualifies. -/
def analyze_metaphor_network (evidence_list : List MetaphorEvidence) :
    NetworkAnalysis :=
  let keys := clusterKeys (evidence_list.map (fun e => e.theory_class))
  let strong := keys.filter (fun t => 5/10 ≤ totalWeight evidence_list t)
  { clusters := keys.map (fun t => (t, mkClusterAnalysis (clusterOf evidence_list t)))
    meta_metaphor_detected := keys.any (fun t =>
      ((clusterOf evidence_list t).any (fun e => e.level = MetaphorLevel.META_METAPHOR))
      && ((clusterOf evidence_list t).any (fun e =>
            e.level = MetaphorLevel.SCIENTIFIC_METAPHOR)))
    dominant_pattern :=
      match keys with
      | [] => none
      | t :: ts => some (ts.foldl (fun best u =>
          if totalWeight evidence_list best < totalWeight evidence_list u then u
          else best) t)
    hybrid_theories := if 1 < strong.length then strong else [] }

/-- A Python value handed to the analyzer where a string is expected; the
source calls `text.lower()` unconditionally, which raises `AttributeError`
for non-string values such as `None` or an `int`. -/
inductive PyObj where
  | PyStr (s : String)
  | PyNone
  | PyInt (n : Int)
  deriving DecidableEq, Repr

/-- Dynamic-typed entry to `identify_semantic_field`: a non-string argument
hits `text.lower()` and raises `AttributeError`. -/
def identify_semantic_field_py : PyObj → Except String (List (String × ℚ × String))
  | .PyStr s => .ok (identify_semantic_field s)
  | _ => .error "AttributeError"

/-- Dynamic-typed entry to `extract_metaphors`: its first step is
`identify_semantic_field(text)`, so a non-string argument raises the same
`AttributeError`. -/
def extract_metaphors_py : PyObj → Except String (List MetaphorEvidence)
  | .PyStr s => .ok (extract_metaphors s)
  | _ => .error "AttributeError"

/-!
The kernel can evaluate the core rational operations, but their definitions
are sealed for elaboration; the theorems below evaluate the analyzer on
concrete inputs, so the arithmetic is unsealed here.
-/
unseal Rat.add Rat.mul Rat.sub Rat.inv

/-! ### The spec's formulation of the semantic-field score -/

/-- The per-theory score exactly as §4.2 of the specification words it: one
`+0.15` contribution for each of the theory's keywords occurring in the
lowered text, plus `0.3 * (matched_token_count / total_token_count)` for
each scientific-metaphor phrase with at least 2 matching tokens, plus
`0.5 * (matched_token_count / total_token_count)` for each
artistic-transformation phrase under the same rule. -/
def specScore (text_lower : String) (d : DomainEntry) : ℚ :=
  15/100 * ((d.keywords.filter (fun k => inStr (lowerStr k) text_lower)).length : ℚ)
  + (d.scientific_metaphors.map (fun m =>
      if 2 ≤ matchCount text_lower m then
        3/10 * ((matchCount text_lower m : ℚ) / ((tokensOf m).length : ℚ))
      else 0)).sum
  + (d.artistic_transformations.map (fun m =>
      if 2 ≤ matchCount text_lower m then
        5/10 * ((matchCount text_lower m : ℚ) / ((tokensOf m).length : ℚ))
      else 0)).sum

/-! ### Sample evidence records used to exercise the network analyzer -/

/-- A hand-built meta-metaphor evidence record for COMP. -/
def evMetaCOMP : MetaphorEvidence where
  span := "данные как материал"
  theory_class := "COMP"
  level := MetaphorLevel.META_METAPHOR
  type := MetaphorType.STRUCTURAL
  weight := 48/100
  semantic_field := "данные как материал"
  source_domain := "данные как материал"

/-- A hand-built scientific-metaphor evidence record for COMP. -/
def evSciCOMP : MetaphorEvidence where
  span := "мозг как компьютер"
  theory_class := "COMP"
  level := MetaphorLevel.SCIENTIFIC_METAPHOR
  type := MetaphorType.STRUCTURAL
  weight := 42/100
  semantic_field := "мозг как компьютер"
  source_domain := "мозг как компьютер"

/-- A hand-built strong (weight 0.6) record for COMP. -/
def evStrongCOMP : MetaphorEvidence where
  span := "алгоритм"
  theory_class := "COMP"
  level := MetaphorLevel.EXPLICIT_TERM
  type := MetaphorType.STRUCTURAL
  weight := 6/10
  semantic_field := "алгоритм"
  source_domain := "алгоритм"

/-- A hand-built strong (weight 0.6) record for IIT. -/
def evStrongIIT : MetaphorEvidence where
  span := "квалиа"
  theory_class := "IIT"
  level := MetaphorLevel.EXPLICIT_TERM
  type := MetaphorType.STRUCTURAL
  weight := 6/10
  semantic_field := "квалиа"
  source_domain := "квалиа"

/-- The evidence record the pipeline extracts from the text
"алгоритм код": two COMP keywords score 0.3, the first keyword wins level
detection, no marker appears so the type is decorative, and the weight is
`min(1.0 * 0.3 * 0.3, 1) = 0.09`. -/
def evAlgoKod : MetaphorEvidence where
  span := "алгоритм"
  theory_class := "COMP"
  level := MetaphorLevel.EXPLICIT_TERM
  type := MetaphorType.DECORATIVE
  weight := 9/100
  semantic_field := "алгоритм, код"
  source_domain := "алгоритм"
  reasoning := "explicit_term в decorative контексте"

/-! ### Helper lemmas -/

/-- Substring containment is transitive. -/
lemma inStr_trans {a b c : String} (h1 : inStr a b = true)
    (h2 : inStr b c = true) : inStr a c = true := by
  rw [inStr, decide_eq_true_iff] at h1 h2 ⊢
  exact h1.trans h2

/-- Both level base weights are positive. -/
lemma level_weight_pos (lv : MetaphorLevel) : 0 < level_weight lv := by
  cases lv <;> norm_num [level_weight]

/-- All type multipliers are positive. -/
lemma type_multiplier_pos (mt : MetaphorType) : 0 < type_multiplier mt := by
  cases mt <;> norm_num [type_multiplier]

/-- `clusterKeys` is empty exactly for the empty input. -/
lemma clusterKeys_eq_nil {L : List String} : clusterKeys L = [] ↔ L = [] := by
  cases L <;> simp [clusterKeys]

/-- A single phrase contribution of the score formula is nonnegative. -/
lemma phrase_term_nonneg (text_lower m : String) {w : ℚ} (hw : 0 ≤ w) :
    (0:ℚ) ≤ if 2 ≤ matchCount text_lower m then
      w * ((matchCount text_lower m : ℚ) / ((tokensOf m).length : ℚ))
    else 0 := by
  split
  · apply mul_nonneg hw
    apply div_nonneg <;> exact_mod_cast Nat.zero_le _
  · exact le_refl 0

/-- A conditionally accumulating fold is the initial value plus the sum of
the guarded addends. -/
lemma foldl_if_add (p : α → Prop) [DecidablePred p] (g : α → ℚ) :
    ∀ (l : List α) (init : ℚ),
      l.foldl (fun s x => if p x then s + g x else s) init
        = init + (l.map (fun x => if p x then g x else 0)).sum := by
  intro l
  induction l with
  | nil => intro init; simp
  | cons a l ih =>
      intro init
      by_cases h : p a <;> simp [h, ih, add_assoc]

/-- Summing a constant over the matching elements counts them. -/
lemma sum_map_ite_const (p : α → Bool) (c : ℚ) :
    ∀ l : List α,
      (l.map (fun x => if p x then c else 0)).sum
        = c * ((l.filter p).length : ℚ) := by
  intro l
  induction l with
  | nil => simp
  | cons a l ih =>
      by_cases h : p a = true <;>
        simp [h, ih, mul_add, add_comm]

/-- The loop-accumulated score of one domain equals the specification's sum
formula. -/
lemma domainScore_eq_specScore (text_lower : String) (d : DomainEntry) :
    domainScore text_lower d = specScore text_lower d := by
  simp only [domainScore, specScore, foldl_if_add, sum_map_ite_const]
  ring

/-- Every summand of the spec formula is nonnegative, so the score is. -/
lemma specScore_nonneg (text_lower : String) (d : DomainEntry) :
    0 ≤ specScore text_lower d := by
  unfold specScore
  have hk : (0:ℚ) ≤ 15/100 *
      ((d.keywords.filter (fun k => inStr (lowerStr k) text_lower)).length : ℚ) := by
    positivity
  have hterm : ∀ (w : ℚ), 0 ≤ w → ∀ (ms : List String),
      (0:ℚ) ≤ (ms.map (fun m =>
        if 2 ≤ matchCount text_lower m then
          w * ((matchCount text_lower m : ℚ) / ((tokensOf m).length : ℚ))
        else 0)).sum := by
    intro w hw ms
    apply List.sum_nonneg
    intro x hx
    rw [List.mem_map] at hx
    obtain ⟨m, _, rfl⟩ := hx
    exact phrase_term_nonneg text_lower m hw
  have h3 := hterm (3/10) (by norm_num) d.scientific_metaphors
  have h5 := hterm (5/10) (by norm_num) d.artistic_transformations
  linarith

/-- `domainScore` is nonnegative. -/
lemma domainScore_nonneg (text_lower : String) (d : DomainEntry) :
    0 ≤ domainScore text_lower d := by
  rw [domainScore_eq_specScore]; exact specScore_nonneg text_lower d

/-- Membership in the output of `identify_semantic_field`, characterised by
the ontology table. -/
lemma mem_identify_iff {text : String} {t : String} {s : ℚ} {f : String} :
    (t, s, f) ∈ identify_semantic_field text ↔
      ∃ d, (t, d) ∈ get_all_domains ∧ 0 < domainScore (lowerStr text) d ∧
        s = min (domainScore (lowerStr text) d) 1 ∧
        f = semanticFieldLabel (lowerStr text) d := by
  unfold identify_semantic_field
  rw [(List.perm_insertionSort _ _).mem_iff, List.mem_filterMap]
  constructor
  · rintro ⟨⟨t', d⟩, hmem, hsome⟩
    by_cases h : 0 < domainScore (lowerStr text) d
    · refine ⟨d, ?_, h, ?_, ?_⟩ <;>
        simp only [h, if_pos] at hsome <;>
        cases hsome <;> simp [hmem]
    · simp [h] at hsome
  · rintro ⟨d, hmem, hpos, rfl, rfl⟩
    exact ⟨(t, d), hmem, by simp [hpos]⟩

/-- A `filterMap` that preserves a projection yields a sublist of the
projections. -/
lemma filterMap_map_sublist {α β γ : Type} (g : α → Option β) (p : β → γ)
    (q : α → γ) (hg : ∀ a b, g a = some b → p b = q a) :
    ∀ l : List α, ((l.filterMap g).map p).Sublist (l.map q) := by
  intro l
  induction l with
  | nil => simp
  | cons a l ih =>
      rw [List.filterMap_cons]
      cases hga : g a with
      | none => simpa using ih.cons (q a)
      | some b =>
          rw [List.map_cons, List.map_cons, hg a b hga]
          exact ih.cons₂ (q a)

/-- The theories reported by `identify_semantic_field` are pairwise
distinct. -/
lemma identify_nodup (text : String) :
    ((identify_semantic_field text).map Prod.fst).Nodup := by
  unfold identify_semantic_field
  apply (((List.perm_insertionSort _ _).map Prod.fst).nodup_iff).mpr
  have hsub := filterMap_map_sublist
    (fun td : String × DomainEntry =>
      let score := domainScore (lowerStr text) td.2
      if 0 < score then
        some (td.1, min score 1, semanticFieldLabel (lowerStr text) td.2)
      else none)
    Prod.fst Prod.fst
    (by
      intro a b hab
      simp only at hab
      split at hab
      · cases hab; rfl
      · cases hab)
    get_all_domains
  exact hsub.nodup (by decide)

/-- Whatever `evidenceFor` produces carries the candidate's theory, its
weight formula, and a score that passed the `0.2` floor. -/
lemma evidenceFor_spec {text : String} {tsf : String × ℚ × String}
    {e : MetaphorEvidence} (h : evidenceFor text tsf = some e) :
    e.theory_class = tsf.1 ∧
    e.weight = calculate_metaphor_weight e.level e.type tsf.2.1 ∧
    ¬ (tsf.2.1 < 2/10) := by
  unfold evidenceFor at h
  simp only at h
  split at h
  · cases h
  · rename_i hscore
    split at h
    · cases h
    · cases h
      exact ⟨rfl, rfl, hscore⟩

/-- The full field content of a produced evidence record, in terms of the
detector, classifier and weight calculator. -/
lemma evidenceFor_fields {text : String} {tsf : String × ℚ × String}
    {e : MetaphorEvidence} (h : evidenceFor text tsf = some e) :
    e.theory_class = tsf.1
    ∧ e.span = (detect_metaphor_level text (domainOf tsf.1).keywords
        (domainOf tsf.1).scientific_metaphors
        (domainOf tsf.1).artistic_transformations).2
    ∧ e.level = (detect_metaphor_level text (domainOf tsf.1).keywords
        (domainOf tsf.1).scientific_metaphors
        (domainOf tsf.1).artistic_transformations).1
    ∧ e.type = determine_metaphor_type text e.span
    ∧ e.weight = calculate_metaphor_weight e.level e.type tsf.2.1 := by
  unfold evidenceFor at h
  simp only at h
  split at h
  · cases h
  · split at h
    · cases h
    · cases h
      exact ⟨rfl, rfl, rfl, rfl, rfl⟩

/-- `evidenceFor` produces a record whenever the score floor passes and the
detector does not return an empty nested span. -/
lemma evidenceFor_isSome {text : String} {tsf : String × ℚ × String}
    (h1 : ¬ (tsf.2.1 < 2/10))
    (h2 : ¬ ((detect_metaphor_level text (domainOf tsf.1).keywords
        (domainOf tsf.1).scientific_metaphors
        (domainOf tsf.1).artistic_transformations).2 = ""
      ∧ (detect_metaphor_level text (domainOf tsf.1).keywords
        (domainOf tsf.1).scientific_metaphors
        (domainOf tsf.1).artistic_transformations).1
          = MetaphorLevel.NESTED_METAPHOR)) :
    ∃ e, evidenceFor text tsf = some e := by
  cases hev : evidenceFor text tsf with
  | some e => exact ⟨e, rfl⟩
  | none =>
      exfalso
      unfold evidenceFor at hev
      simp only at hev
      rw [if_neg h1, if_neg h2] at hev
      cases hev

/-- The theories of the extracted evidence records are pairwise distinct:
`identify_semantic_field` lists each theory at most once and
`extract_metaphors` keeps at most one record per listed theory. -/
lemma extract_theory_nodup (text : String) :
    ((extract_metaphors text).map (fun e => e.theory_class)).Nodup := by
  unfold extract_metaphors
  have hsub := filterMap_map_sublist (evidenceFor text)
    (fun e => e.theory_class) Prod.fst
    (fun a b hab => (evidenceFor_spec hab).1)
    (identify_semantic_field text)
  exact hsub.nodup (identify_nodup text)

/-- `clusterKeys` lists exactly the elements of the input. -/
lemma mem_clusterKeys {t : String} : ∀ {L : List String}, t ∈ clusterKeys L ↔ t ∈ L := by
  intro L
  induction L with
  | nil => simp [clusterKeys]
  | cons a L ih =>
      simp only [clusterKeys, List.mem_cons, List.mem_filter]
      by_cases h : t = a
      · simp [h]
      · simp [h, ih]

/-- `clusterKeys` never repeats an element. -/
lemma clusterKeys_nodup : ∀ L : List String, (clusterKeys L).Nodup := by
  intro L
  induction L with
  | nil => simp [clusterKeys]
  | cons a L ih =>
      refine List.Nodup.cons ?_ (ih.filter _)
      intro hmem
      rcases List.mem_filter.mp hmem with ⟨-, hne⟩
      simp at hne

/-- The meta-metaphor flag of the network analysis holds exactly when some
theory owns both a meta-metaphor record and a scientific-metaphor record. -/
lemma meta_detected_iff (l : List MetaphorEvidence) :
    (analyze_metaphor_network l).meta_metaphor_detected = true ↔
      ∃ t, (∃ e ∈ l, e.theory_class = t ∧ e.level = MetaphorLevel.META_METAPHOR) ∧
           (∃ e ∈ l, e.theory_class = t ∧ e.level = MetaphorLevel.SCIENTIFIC_METAPHOR) := by
  unfold analyze_metaphor_network
  simp only [List.any_eq_true, Bool.and_eq_true, clusterOf, List.mem_filter,
    decide_eq_true_eq]
  constructor
  · rintro ⟨t, -, ⟨e1, ⟨he1, ht1⟩, hl1⟩, ⟨e2, ⟨he2, ht2⟩, hl2⟩⟩
    exact ⟨t, ⟨e1, he1, ht1, hl1⟩, ⟨e2, he2, ht2, hl2⟩⟩
  · rintro ⟨t, ⟨e1, he1, ht1, hl1⟩, ⟨e2, he2, ht2, hl2⟩⟩
    refine ⟨t, ?_, ⟨e1, ⟨he1, ht1⟩, hl1⟩, ⟨e2, ⟨he2, ht2⟩, hl2⟩⟩
    exact mem_clusterKeys.mpr (ht1 ▸ List.mem_map_of_mem (fun e => e.theory_class) he1)

/-- When the theories of a list are pairwise distinct, every theory bucket
has at most one record. -/
lemma clusterOf_length_le_one {l : List MetaphorEvidence}
    (h : (l.map (fun e => e.theory_class)).Nodup) (t : String) :
    (clusterOf l t).length ≤ 1 := by
  induction l with
  | nil => simp [clusterOf]
  | cons e l ih =>
      rw [List.map_cons, List.nodup_cons] at h
      unfold clusterOf at ih ⊢
      rw [List.filter_cons]
      by_cases he : e.theory_class = t
      · have hnil : l.filter (fun x => decide (x.theory_class = t)) = [] := by
          rw [List.filter_eq_nil_iff]
          intro x hx
          simp only [decide_eq_true_eq]
          intro hxt
          apply h.1
          rw [he, ← hxt]
          exact List.mem_map_of_mem _ hx
        simp [he, hnil]
      · simpa [he] using ih h.2

/-- Two distinct members force a length above one. -/
lemma one_lt_length_of_two_mem {α : Type} {l : List α} {a b : α}
    (ha : a ∈ l) (hb : b ∈ l) (hab : a ≠ b) : 1 < l.length := by
  match l with
  | [] => cases ha
  | [x] =>
      rw [List.mem_singleton] at ha hb
      exact absurd (ha.trans hb.symm) hab
  | x :: y :: t => simp [Nat.lt_add_of_pos_left]

/-- Python's `max(items, key=...)` over a fold: the result is a member, its
value is maximal, and everything listed before it is strictly smaller. -/
lemma foldl_max_first {α : Type} (f : α → ℚ) :
    ∀ (l : List α) (a : α),
      ∃ l₁ l₂,
        a :: l = l₁ ++ (l.foldl (fun best x => if f best < f x then x else best) a) :: l₂
        ∧ (∀ y ∈ l₁, f y < f (l.foldl (fun best x => if f best < f x then x else best) a))
        ∧ (∀ y ∈ a :: l, f y ≤ f (l.foldl (fun best x => if f best < f x then x else best) a)) := by
  intro l
  induction l with
  | nil =>
      intro a
      exact ⟨[], [], rfl, by simp, by simp⟩
  | cons x l ih =>
      intro a
      rw [List.foldl_cons]
      by_cases h : f a < f x
      · rw [if_pos h]
        obtain ⟨l₁, l₂, heq, hlt, hle⟩ := ih x
        have hxm : f x ≤ f (l.foldl (fun best x => if f best < f x then x else best) x) :=
          hle x (List.mem_cons_self x l)
        refine ⟨a :: l₁, l₂, ?_, ?_, ?_⟩
        · rw [List.cons_append, ← heq]
        · intro y hy
          rcases List.mem_cons.mp hy with rfl | hy
          · exact lt_of_lt_of_le h hxm
          · exact hlt y hy
        · intro y hy
          rcases List.mem_cons.mp hy with rfl | hy
          · exact le_of_lt (lt_of_lt_of_le h hxm)
          · exact hle y hy
      · rw [if_neg h]
        obtain ⟨l₁, l₂, heq, hlt, hle⟩ := ih a
        set m := l.foldl (fun best x => if f best < f x then x else best) a with hm
        have ham : f a ≤ f m := hle a (List.mem_cons_self a l)
        cases l₁ with
        | nil =>
            rw [List.nil_append, List.cons.injEq] at heq
            obtain ⟨h1, h2⟩ := heq
            refine ⟨[], x :: l₂, ?_, by simp, ?_⟩
            · rw [List.nil_append, ← h1, ← h2]
            · intro y hy
              rcases List.mem_cons.mp hy with rfl | hy
              · exact ham
              · rcases List.mem_cons.mp hy with rfl | hy
                · exact le_trans (le_of_not_lt h) ham
                · exact hle y (List.mem_cons_of_mem a hy)
        | cons b l₁' =>
            rw [List.cons_append, List.cons.injEq] at heq
            obtain ⟨rfl, heq2⟩ := heq
            have hbm := hlt a (List.mem_cons_self a l₁')
            refine ⟨a :: x :: l₁', l₂, ?_, ?_, ?_⟩
            · rw [List.cons_append, List.cons_append, heq2]
            · intro y hy
              rcases List.mem_cons.mp hy with rfl | hy
              · exact hbm
              · rcases List.mem_cons.mp hy with rfl | hy
                · exact lt_of_le_of_lt (le_of_not_lt h) hbm
                · exact hlt y (List.mem_cons_of_mem a hy)
            · intro y hy
              rcases List.mem_cons.mp hy with rfl | hy
              · exact ham
              · rcases List.mem_cons.mp hy with rfl | hy
                · exact le_trans (le_of_not_lt h) ham
                · exact hle y (List.mem_cons_of_mem a hy)

/-! ### Claim theorems -/

/-- C5: `detect_metaphor_level` follows the strict four-step precedence,
first match wins: a keyword occurring in the lowered text yields
`(explicit_term, that keyword)`; otherwise a scientific-metaphor phrase
with at least `floor(tokens/2)` of its tokens present yields
`(scientific_metaphor, that phrase)` (so a 1-token phrase needs 0 matches
and always passes when reached); otherwise the same half-token rule over
artistic transformations yields `(meta_metaphor, that phrase)`; otherwise
the result is `(nested_metaphor, "")`.  The function is total in this
embedding, so exactly one pair is returned and no exception is raised. -/
theorem C5_detect_level_precedence (text : String) (kws sms ats : List String) :
    ((∃ k ∈ kws, inStr (lowerStr k) (lowerStr text) = true) →
      ∃ k ∈ kws, inStr (lowerStr k) (lowerStr text) = true ∧
        detect_metaphor_level text kws sms ats = (MetaphorLevel.EXPLICIT_TERM, k))
    ∧ ((∀ k ∈ kws, inStr (lowerStr k) (lowerStr text) = false) →
       (∃ m ∈ sms, (tokensOf m).length / 2 ≤ matchCount (lowerStr text) m) →
      ∃ m ∈ sms, (tokensOf m).length / 2 ≤ matchCount (lowerStr text) m ∧
        detect_metaphor_level text kws sms ats = (MetaphorLevel.SCIENTIFIC_METAPHOR, m))
    ∧ ((∀ k ∈ kws, inStr (lowerStr k) (lowerStr text) = false) →
       (∀ m ∈ sms, ¬ ((tokensOf m).length / 2 ≤ matchCount (lowerStr text) m)) →
       (∃ m ∈ ats, (tokensOf m).length / 2 ≤ matchCount (lowerStr text) m) →
      ∃ m ∈ ats, (tokensOf m).length / 2 ≤ matchCount (lowerStr text) m ∧
        detect_metaphor_level text kws sms ats = (MetaphorLevel.META_METAPHOR, m))
    ∧ ((∀ k ∈ kws, inStr (lowerStr k) (lowerStr text) = false) →
       (∀ m ∈ sms, ¬ ((tokensOf m).length / 2 ≤ matchCount (lowerStr text) m)) →
       (∀ m ∈ ats, ¬ ((tokensOf m).length / 2 ≤ matchCount (lowerStr text) m)) →
        detect_metaphor_level text kws sms ats = (MetaphorLevel.NESTED_METAPHOR, "")) := by
  have hknone : (∀ k ∈ kws, inStr (lowerStr k) (lowerStr text) = false) →
      kws.find? (fun keyword => inStr (lowerStr keyword) (lowerStr text)) = none := by
    intro hall
    rw [List.find?_eq_none]
    intro k hk
    simp [hall k hk]
  have hsnone : (∀ m ∈ sms, ¬ ((tokensOf m).length / 2 ≤ matchCount (lowerStr text) m)) →
      sms.find? (fun metaphor =>
        (tokensOf metaphor).length / 2 ≤ matchCount (lowerStr text) metaphor) = none := by
    intro hall
    rw [List.find?_eq_none]
    intro m hm
    simpa using hall m hm
  have hanone : (∀ m ∈ ats, ¬ ((tokensOf m).length / 2 ≤ matchCount (lowerStr text) m)) →
      ats.find? (fun transformation =>
        (tokensOf transformation).length / 2
          ≤ matchCount (lowerStr text) transformation) = none := by
    intro hall
    rw [List.find?_eq_none]
    intro m hm
    simpa using hall m hm
  refine ⟨?_, ?_, ?_, ?_⟩
  · rintro ⟨k, hk, hin⟩
    cases hfind : kws.find? (fun keyword => inStr (lowerStr keyword) (lowerStr text)) with
    | none =>
        have := List.find?_eq_none.mp hfind k hk
        simp [hin] at this
    | some k' =>
        refine ⟨k', List.mem_of_find?_eq_some hfind,
          by simpa using List.find?_some hfind, ?_⟩
        unfold detect_metaphor_level
        rw [hfind]
  · intro hk hex
    obtain ⟨m, hm, hhalf⟩ := hex
    cases hfind : sms.find? (fun metaphor =>
        (tokensOf metaphor).length / 2 ≤ matchCount (lowerStr text) metaphor) with
    | none =>
        have := List.find?_eq_none.mp hfind m hm
        simp [hhalf] at this
    | some m' =>
        refine ⟨m', List.mem_of_find?_eq_some hfind,
          by simpa using List.find?_some hfind, ?_⟩
        unfold detect_metaphor_level
        rw [hknone hk, hfind]
  · intro hk hs hex
    obtain ⟨m, hm, hhalf⟩ := hex
    cases hfind : ats.find? (fun transformation =>
        (tokensOf transformation).length / 2
          ≤ matchCount (lowerStr text) transformation) with
    | none =>
        have := List.find?_eq_none.mp hfind m hm
        simp [hhalf] at this
    | some m' =>
        refine ⟨m', List.mem_of_find?_eq_some hfind,
          by simpa using List.find?_some hfind, ?_⟩
        unfold detect_metaphor_level
        rw [hknone hk, hsnone hs, hfind]
  · intro hk hs ha
    unfold detect_metaphor_level
    rw [hknone hk, hsnone hs, hanone ha]

/-- C5 witness: on the keyword text "алгоритм" with the COMP phrase lists,
the first branch of the precedence fires and returns the keyword. -/
theorem C5_detect_level_precedence_witness :
    ∃ k ∈ COMPUTATIONAL.keywords,
      inStr (lowerStr k) (lowerStr "алгоритм") = true ∧
      detect_metaphor_level "алгоритм" COMPUTATIONAL.keywords
        COMPUTATIONAL.scientific_metaphors COMPUTATIONAL.artistic_transformations
        = (MetaphorLevel.EXPLICIT_TERM, k) :=
  (C5_detect_level_precedence "алгоритм" COMPUTATIONAL.keywords
    COMPUTATIONAL.scientific_metaphors COMPUTATIONAL.artistic_transformations).1
    ⟨"алгоритм", by decide, by decide⟩

/-- C4: every `(theory, score, label)` triple reported by
`identify_semantic_field` carries the specification's score: the sum of
0.15 per keyword of the theory occurring in the lowered text, plus
`0.3 * matched/total` per scientific-metaphor phrase with at least two
matching tokens, plus `0.5 * matched/total` per artistic-transformation
phrase under the same rule, capped at 1. -/
theorem C4_score_is_spec_formula (text : String) (t : String) (s : ℚ) (f : String)
    (h : (t, s, f) ∈ identify_semantic_field text) :
    ∃ d, (t, d) ∈ get_all_domains ∧ s = min (specScore (lowerStr text) d) 1 := by
  obtain ⟨d, hd, hpos, hs, hf⟩ := mem_identify_iff.mp h
  exact ⟨d, hd, by rw [hs, domainScore_eq_specScore]⟩

/-- C4 witness: the COMP triple of the text "алгоритм" scores 0.15, which
the theorem identifies with the capped spec formula. -/
theorem C4_score_is_spec_formula_witness :
    ("COMP", (15/100 : ℚ), "алгоритм") ∈ identify_semantic_field "алгоритм"
    ∧ ∃ d, ("COMP", d) ∈ get_all_domains ∧
        (15/100 : ℚ) = min (specScore (lowerStr "алгоритм") d) 1 :=
  ⟨by decide, C4_score_is_spec_formula "алгоритм" "COMP" (15/100) "алгоритм" (by decide)⟩

/-- C6: every evidence record of `extract_metaphors` has a weight in
[0, 1], and that weight is `min(level_base_weight * type_multiplier *
context_relevance, 1)` where the context relevance is the theory's
semantic-field score. -/
theorem C6_weight_bounds_and_formula (text : String) (e : MetaphorEvidence)
    (h : e ∈ extract_metaphors text) :
    0 ≤ e.weight ∧ e.weight ≤ 1 ∧
    ∃ s f, (e.theory_class, s, f) ∈ identify_semantic_field text ∧
      e.weight = min (level_weight e.level * type_multiplier e.type * s) 1 := by
  rw [extract_metaphors, List.mem_filterMap] at h
  obtain ⟨⟨t, s, f⟩, hmem, hsome⟩ := h
  obtain ⟨hth, hw, hscore⟩ := evidenceFor_spec hsome
  obtain ⟨d, hd, hpos, hs, hf⟩ := mem_identify_iff.mp hmem
  have hs0 : 0 ≤ s := by
    rw [hs]
    exact le_min (domainScore_nonneg _ _) zero_le_one
  refine ⟨?_, ?_, s, f, by rw [hth]; exact hmem, hw⟩
  · rw [hw]
    unfold calculate_metaphor_weight
    exact le_min
      (mul_nonneg (mul_nonneg (level_weight_pos e.level).le
        (type_multiplier_pos e.type).le) hs0) zero_le_one
  · rw [hw]
    exact min_le_right _ _

/-- C6 witness: the single record extracted from "алгоритм код" (score 0.3,
level explicit_term, type decorative, weight 0.09) satisfies the bounds and
the formula. -/
theorem C6_weight_bounds_and_formula_witness :
    ∃ e, e ∈ extract_metaphors "алгоритм код" ∧
      (0 ≤ e.weight ∧ e.weight ≤ 1 ∧
       ∃ s f, (e.theory_class, s, f) ∈ identify_semantic_field "алгоритм код" ∧
         e.weight = min (level_weight e.level * type_multiplier e.type * s) 1) := by
  have hin : evAlgoKod ∈ extract_metaphors "алгоритм код" := by
    rw [extract_metaphors, List.mem_filterMap]
    exact ⟨("COMP", (3/10 : ℚ), "алгоритм, код"), by decide, by decide⟩
  exact ⟨evAlgoKod, hin, C6_weight_bounds_and_formula "алгоритм код" evAlgoKod hin⟩

/-- C8: for a nonempty evidence list the dominant pattern is the theory
whose cluster has maximal total weight, ties broken in favour of the
theory first encountered during grouping (the cluster-key order follows
the evidence sequence); for an empty list it is none. -/
theorem C8_dominant_first_encountered_max (l : List MetaphorEvidence) :
    ((analyze_metaphor_network l).dominant_pattern = none ↔ l = [])
    ∧ (∀ d, (analyze_metaphor_network l).dominant_pattern = some d →
        d ∈ clusterKeys (l.map (fun e => e.theory_class))
        ∧ (∀ t ∈ clusterKeys (l.map (fun e => e.theory_class)),
            totalWeight l t ≤ totalWeight l d)
        ∧ ∃ l₁ l₂, clusterKeys (l.map (fun e => e.theory_class)) = l₁ ++ d :: l₂
            ∧ ∀ t ∈ l₁, totalWeight l t < totalWeight l d) := by
  cases hk : clusterKeys (l.map (fun e => e.theory_class)) with
  | nil =>
      have hl : l = [] := by
        have hmap := clusterKeys_eq_nil.mp hk
        simpa using List.map_eq_nil_iff.mp hmap
      subst hl
      exact ⟨⟨fun _ => rfl, fun _ => rfl⟩, fun d hd => by cases hd⟩
  | cons t ts =>
      have hdom : (analyze_metaphor_network l).dominant_pattern
          = some (ts.foldl (fun best u =>
              if totalWeight l best < totalWeight l u then u else best) t) := by
        simp only [analyze_metaphor_network, hk]
      obtain ⟨l₁, l₂, heq, hlt, hle⟩ := foldl_max_first (totalWeight l) ts t
      constructor
      · rw [hdom]
        constructor
        · intro h; cases h
        · intro h
          subst h
          simp [clusterKeys] at hk
      · intro d hd
        rw [hdom] at hd
        injection hd with hd
        subst hd
        refine ⟨?_, ?_, l₁, l₂, ?_, hlt⟩
        · rw [heq]
          exact List.mem_append.mpr (Or.inr (List.mem_cons_self _ _))
        · intro u hu
          exact hle u hu
        · exact heq

/-- C8 witness: on the singleton list of one COMP record the theorem pins
the dominant pattern data down at COMP. -/
theorem C8_dominant_first_encountered_max_witness :
    "COMP" ∈ clusterKeys ([evStrongCOMP].map (fun e => e.theory_class))
    ∧ (∀ t ∈ clusterKeys ([evStrongCOMP].map (fun e => e.theory_class)),
        totalWeight [evStrongCOMP] t ≤ totalWeight [evStrongCOMP] "COMP")
    ∧ ∃ l₁ l₂,
        clusterKeys ([evStrongCOMP].map (fun e => e.theory_class))
          = l₁ ++ "COMP" :: l₂
        ∧ ∀ t ∈ l₁, totalWeight [evStrongCOMP] t < totalWeight [evStrongCOMP] "COMP" :=
  (C8_dominant_first_encountered_max [evStrongCOMP]).2 "COMP" (by decide)

/-- C9: a theory is reported hybrid iff more than one theory reaches a
cluster total weight of at least 0.5 (shown by two distinct qualifying
theories) and the theory itself is a qualifying one; so with exactly two
qualifying theories the hybrid set holds exactly those two. -/
theorem C9_hybrid_exactly_strong_when_plural (l : List MetaphorEvidence) (t : String) :
    t ∈ (analyze_metaphor_network l).hybrid_theories ↔
      ((∃ t1 ∈ clusterKeys (l.map (fun e => e.theory_class)),
        ∃ t2 ∈ clusterKeys (l.map (fun e => e.theory_class)),
          t1 ≠ t2 ∧ 5/10 ≤ totalWeight l t1 ∧ 5/10 ≤ totalWeight l t2)
       ∧ t ∈ clusterKeys (l.map (fun e => e.theory_class))
       ∧ 5/10 ≤ totalWeight l t) := by
  have hhyb : (analyze_metaphor_network l).hybrid_theories
      = if 1 < ((clusterKeys (l.map (fun e => e.theory_class))).filter
            (fun u => (5:ℚ)/10 ≤ totalWeight l u)).length
        then (clusterKeys (l.map (fun e => e.theory_class))).filter
            (fun u => (5:ℚ)/10 ≤ totalWeight l u)
        else [] := rfl
  rw [hhyb]
  by_cases hlen : 1 < ((clusterKeys (l.map (fun e => e.theory_class))).filter
      (fun u => (5:ℚ)/10 ≤ totalWeight l u)).length
  · rw [if_pos hlen]
    constructor
    · intro hmem
      rcases List.mem_filter.mp hmem with ⟨htk, htw⟩
      rw [decide_eq_true_eq] at htw
      refine ⟨?_, htk, htw⟩
      match hs : (clusterKeys (l.map (fun e => e.theory_class))).filter
          (fun u => (5:ℚ)/10 ≤ totalWeight l u) with
      | [] => rw [hs] at hlen; simp at hlen
      | [x] => rw [hs] at hlen; simp at hlen
      | t1 :: t2 :: rest =>
          have hnd : (t1 :: t2 :: rest).Nodup := by
            rw [← hs]
            exact (clusterKeys_nodup _).filter _
          have h1 : t1 ∈ (clusterKeys (l.map (fun e => e.theory_class))).filter
              (fun u => (5:ℚ)/10 ≤ totalWeight l u) := by
            rw [hs]; exact List.mem_cons_self _ _
          have h2 : t2 ∈ (clusterKeys (l.map (fun e => e.theory_class))).filter
              (fun u => (5:ℚ)/10 ≤ totalWeight l u) := by
            rw [hs]
            exact List.mem_cons_of_mem _ (List.mem_cons_self _ _)
          rcases List.mem_filter.mp h1 with ⟨h1k, h1w⟩
          rcases List.mem_filter.mp h2 with ⟨h2k, h2w⟩
          rw [decide_eq_true_eq] at h1w h2w
          refine ⟨t1, h1k, t2, h2k, ?_, h1w, h2w⟩
          intro hne
          subst hne
          simp at hnd
    · rintro ⟨-, htk, htw⟩
      exact List.mem_filter.mpr ⟨htk, by rw [decide_eq_true_eq]; exact htw⟩
  · rw [if_neg hlen]
    constructor
    · intro hmem; cases hmem
    · rintro ⟨⟨t1, h1k, t2, h2k, hne, h1w, h2w⟩, -, -⟩
      exfalso
      apply hlen
      have h1 : t1 ∈ (clusterKeys (l.map (fun e => e.theory_class))).filter
          (fun u => (5:ℚ)/10 ≤ totalWeight l u) :=
        List.mem_filter.mpr ⟨h1k, by rw [decide_eq_true_eq]; exact h1w⟩
      have h2 : t2 ∈ (clusterKeys (l.map (fun e => e.theory_class))).filter
          (fun u => (5:ℚ)/10 ≤ totalWeight l u) :=
        List.mem_filter.mpr ⟨h2k, by rw [decide_eq_true_eq]; exact h2w⟩
      exact one_lt_length_of_two_mem h1 h2 hne

/-- C9 witness: two strong records (COMP and IIT, weight 0.6 each) make
COMP a member of the hybrid set. -/
theorem C9_hybrid_exactly_strong_when_plural_witness :
    "COMP" ∈ (analyze_metaphor_network [evStrongCOMP, evStrongIIT]).hybrid_theories :=
  (C9_hybrid_exactly_strong_when_plural [evStrongCOMP, evStrongIIT] "COMP").mpr
    ⟨⟨"COMP", by decide, "IIT", by decide, by decide, by decide, by decide⟩,
     by decide, by decide⟩

/-- C3 counterexample: the text "алгоритм как художник и сознание"
contains the phrase "алгоритм как художник" and the consciousness marker
"сознание", yet no extracted COMP record has level meta_metaphor — the
keyword "алгоритм" already matches in the first precedence step, so the
claimed meta_metaphor-level COMP record does not exist. -/
theorem C3_counterexample :
    inStr "алгоритм как художник" (lowerStr "алгоритм как художник и сознание") = true
    ∧ inStr "сознание" (lowerStr "алгоритм как художник и сознание") = true
    ∧ "сознание" ∈ ontological_markers
    ∧ ∀ e ∈ extract_metaphors "алгоритм как художник и сознание",
        ¬ (e.theory_class = "COMP" ∧ e.level = MetaphorLevel.META_METAPHOR) := by
  exact ⟨by decide, by decide, by decide, by decide⟩

/-- C3 amended: for every text whose lowering contains the phrase
"алгоритм как художник" together with some consciousness marker, the COMP
record is extracted at level explicit_term with span "алгоритм" (the
keyword matches in step 1 of the precedence, before the artistic
transformation is reached), type ontological, and weight
`min(1.0 * 1.2 * context_relevance, 1)` for COMP's semantic-field score as
context relevance. -/
theorem C3_amended_explicit_term_record (text : String)
    (hphrase : inStr "алгоритм как художник" (lowerStr text) = true)
    (hmarker : ∃ marker ∈ ontological_markers, inStr marker (lowerStr text) = true) :
    ∃ e ∈ extract_metaphors text,
      e.theory_class = "COMP"
      ∧ e.level = MetaphorLevel.EXPLICIT_TERM
      ∧ e.span = "алгоритм"
      ∧ e.type = MetaphorType.ONTOLOGICAL
      ∧ ∃ s f, ("COMP", s, f) ∈ identify_semantic_field text
          ∧ e.weight = min (12/10 * s) 1 := by
  have h_alg : inStr (lowerStr "алгоритм") (lowerStr text) = true :=
    inStr_trans (by decide) hphrase
  have htok1 : inStr "алгоритм" (lowerStr text) = true :=
    inStr_trans (by decide) hphrase
  have htok2 : inStr "как" (lowerStr text) = true :=
    inStr_trans (by decide) hphrase
  have htok3 : inStr "художник" (lowerStr text) = true :=
    inStr_trans (by decide) hphrase
  have hmc : matchCount (lowerStr text) "алгоритм как художник" = 3 := by
    unfold matchCount
    rw [show tokensOf "алгоритм как художник"
        = ["алгоритм", "как", "художник"] from by decide]
    simp [List.countP_cons, htok1, htok2, htok3]
  have hspec : 65/100 ≤ specScore (lowerStr text) COMPUTATIONAL := by
    have hkw : (1:ℚ) ≤ ((COMPUTATIONAL.keywords.filter
        (fun k => inStr (lowerStr k) (lowerStr text))).length : ℚ) := by
      have hmem : "алгоритм" ∈ COMPUTATIONAL.keywords.filter
          (fun k => inStr (lowerStr k) (lowerStr text)) :=
        List.mem_filter.mpr ⟨by decide, h_alg⟩
      have : 0 < (COMPUTATIONAL.keywords.filter
          (fun k => inStr (lowerStr k) (lowerStr text))).length :=
        List.length_pos_of_mem hmem
      exact_mod_cast this
    have hsci : (0:ℚ) ≤ (COMPUTATIONAL.scientific_metaphors.map (fun m =>
        if 2 ≤ matchCount (lowerStr text) m then
          3/10 * ((matchCount (lowerStr text) m : ℚ) / ((tokensOf m).length : ℚ))
        else 0)).sum := by
      apply List.sum_nonneg
      intro x hx
      rw [List.mem_map] at hx
      obtain ⟨m, -, rfl⟩ := hx
      exact phrase_term_nonneg (lowerStr text) m (by norm_num)
    have hart : (1:ℚ)/2 ≤ (COMPUTATIONAL.artistic_transformations.map (fun m =>
        if 2 ≤ matchCount (lowerStr text) m then
          5/10 * ((matchCount (lowerStr text) m : ℚ) / ((tokensOf m).length : ℚ))
        else 0)).sum := by
      have hval : (if 2 ≤ matchCount (lowerStr text) "алгоритм как художник" then
          (5:ℚ)/10 * ((matchCount (lowerStr text) "алгоритм как художник" : ℚ)
            / ((tokensOf "алгоритм как художник").length : ℚ))
        else 0) = 1/2 := by
        rw [hmc, show (tokensOf "алгоритм как художник").length = 3 from by decide]
        norm_num
      have hmem : ((fun m => if 2 ≤ matchCount (lowerStr text) m then
          (5:ℚ)/10 * ((matchCount (lowerStr text) m : ℚ) / ((tokensOf m).length : ℚ))
        else 0) "алгоритм как художник")
          ∈ COMPUTATIONAL.artistic_transformations.map (fun m =>
            if 2 ≤ matchCount (lowerStr text) m then
              (5:ℚ)/10 * ((matchCount (lowerStr text) m : ℚ) / ((tokensOf m).length : ℚ))
            else 0) :=
        List.mem_map_of_mem _ (by decide)
      have hle := List.single_le_sum (fun x hx => by
        rw [List.mem_map] at hx
        obtain ⟨m, -, rfl⟩ := hx
        exact phrase_term_nonneg (lowerStr text) m (by norm_num)) _ hmem
      simpa only [hval] using hle
    unfold specScore
    have h15 : (15:ℚ)/100 * 1 ≤ 15/100 * ((COMPUTATIONAL.keywords.filter
        (fun k => inStr (lowerStr k) (lowerStr text))).length : ℚ) := by
      apply mul_le_mul_of_nonneg_left hkw
      norm_num
    linarith
  have hds : 65/100 ≤ domainScore (lowerStr text) COMPUTATIONAL := by
    rw [domainScore_eq_specScore]
    exact hspec
  have hpos : 0 < domainScore (lowerStr text) COMPUTATIONAL :=
    lt_of_lt_of_le (by norm_num) hds
  have hsmem : ("COMP", min (domainScore (lowerStr text) COMPUTATIONAL) 1,
      semanticFieldLabel (lowerStr text) COMPUTATIONAL) ∈ identify_semantic_field text :=
    mem_identify_iff.mpr ⟨COMPUTATIONAL, by decide, hpos, rfl, rfl⟩
  have hs02 : ¬ (min (domainScore (lowerStr text) COMPUTATIONAL) 1 < 2/10) := by
    apply not_lt.mpr
    exact le_min (by linarith) (by norm_num)
  have hdomain : domainOf "COMP" = COMPUTATIONAL := rfl
  have hdetect : detect_metaphor_level text COMPUTATIONAL.keywords
      COMPUTATIONAL.scientific_metaphors COMPUTATIONAL.artistic_transformations
      = (MetaphorLevel.EXPLICIT_TERM, "алгоритм") := by
    unfold detect_metaphor_level
    rw [show COMPUTATIONAL.keywords = "алгоритм" :: ["вычисление", "процессор",
        "программа", "код", "input", "output", "обработка", "computation",
        "function", "символ", "репрезентация", "информация"] from rfl,
      @List.find?_cons_of_pos String
        (fun keyword => inStr (lowerStr keyword) (lowerStr text)) "алгоритм"
        ["вычисление", "процессор", "программа", "код", "input", "output",
         "обработка", "computation", "function", "символ", "репрезентация",
         "информация"] h_alg]
  have htype : determine_metaphor_type text "алгоритм" = MetaphorType.ONTOLOGICAL := by
    obtain ⟨marker, hm, hin⟩ := hmarker
    unfold determine_metaphor_type
    rw [if_pos (List.any_eq_true.mpr ⟨marker, hm, hin⟩)]
  obtain ⟨e, hev⟩ := @evidenceFor_isSome text ("COMP",
      min (domainScore (lowerStr text) COMPUTATIONAL) 1,
      semanticFieldLabel (lowerStr text) COMPUTATIONAL) hs02 (by
    rw [show domainOf ("COMP", min (domainScore (lowerStr text) COMPUTATIONAL) 1,
        semanticFieldLabel (lowerStr text) COMPUTATIONAL).1 = COMPUTATIONAL from rfl,
      hdetect]
    simp)
  obtain ⟨hth, hspan, hlevel, htypee, hweight⟩ := evidenceFor_fields hev
  rw [hdomain, hdetect] at hspan hlevel
  simp only at hth hspan hlevel
  rw [hspan, htype] at htypee
  refine ⟨e, ?_, hth, hlevel, hspan, htypee, min (domainScore (lowerStr text) COMPUTATIONAL) 1,
    semanticFieldLabel (lowerStr text) COMPUTATIONAL, hsmem, ?_⟩
  · rw [extract_metaphors, List.mem_filterMap]
    exact ⟨_, hsmem, hev⟩
  · rw [hweight, hlevel, htypee]
    unfold calculate_metaphor_weight level_weight type_multiplier
    norm_num

/-- C3 witness: the amended theorem applied to the concrete text
"алгоритм как художник и сознание". -/
theorem C3_amended_explicit_term_record_witness :
    ∃ e ∈ extract_metaphors "алгоритм как художник и сознание",
      e.theory_class = "COMP"
      ∧ e.level = MetaphorLevel.EXPLICIT_TERM
      ∧ e.span = "алгоритм"
      ∧ e.type = MetaphorType.ONTOLOGICAL
      ∧ ∃ s f, ("COMP", s, f) ∈ identify_semantic_field "алгоритм как художник и сознание"
          ∧ e.weight = min (12/10 * s) 1 :=
  C3_amended_explicit_term_record "алгоритм как художник и сознание"
    (by decide) ⟨"сознание", by decide, by decide⟩

/-- C1: for every evidence list, `meta_metaphor_detected` is true iff some
theory's group of evidence records contains at least one record of level
meta_metaphor and at least one of level scientific_metaphor; in particular
it is false for the empty evidence list. -/
theorem C1_meta_flag_iff_co_occurrence (l : List MetaphorEvidence) :
    ((analyze_metaphor_network l).meta_metaphor_detected = true ↔
      ∃ t, (∃ e ∈ l, e.theory_class = t ∧ e.level = MetaphorLevel.META_METAPHOR) ∧
           (∃ e ∈ l, e.theory_class = t ∧ e.level = MetaphorLevel.SCIENTIFIC_METAPHOR))
    ∧ (analyze_metaphor_network ([] : List MetaphorEvidence)).meta_metaphor_detected
        = false :=
  ⟨meta_detected_iff l, rfl⟩

/-- C1 witness: on a concrete list holding a COMP meta-metaphor record and
a COMP scientific-metaphor record the flag is set, so the theorem recovers
the co-occurring pair. -/
theorem C1_meta_flag_iff_co_occurrence_witness :
    ∃ t, (∃ e ∈ [evMetaCOMP, evSciCOMP], e.theory_class = t ∧
            e.level = MetaphorLevel.META_METAPHOR) ∧
         (∃ e ∈ [evMetaCOMP, evSciCOMP], e.theory_class = t ∧
            e.level = MetaphorLevel.SCIENTIFIC_METAPHOR) :=
  (C1_meta_flag_iff_co_occurrence [evMetaCOMP, evSciCOMP]).1.mp (by decide)

/-- C2: composed pipeline.  `extract_metaphors` emits at most one evidence
record per theory, so no cluster of `analyze_metaphor_network` can hold
both a meta-metaphor and a scientific-metaphor record, and the composed
pipeline always reports `meta_metaphor_detected = false`. -/
theorem C2_pipeline_meta_flag_always_false (text : String) :
    (∀ t, (clusterOf (extract_metaphors text) t).length ≤ 1) ∧
    (analyze_metaphor_network (extract_metaphors text)).meta_metaphor_detected
      = false := by
  have hnodup := extract_theory_nodup text
  refine ⟨fun t => clusterOf_length_le_one hnodup t, ?_⟩
  rw [← Bool.not_eq_true]
  intro hdet
  obtain ⟨t, ⟨e1, he1, ht1, hl1⟩, ⟨e2, he2, ht2, hl2⟩⟩ := (meta_detected_iff _).mp hdet
  have he : e1 = e2 :=
    List.inj_on_of_nodup_map hnodup he1 he2 (by rw [ht1, ht2])
  rw [he, hl2] at hl1
  cases hl1

/-- C7 counterexample: at context_relevance 0 the meta and scientific
weights coincide (both 0), and at context_relevance 2 the explicit-term and
meta weights coincide (both capped at 1), so the strict orderings of the
claim fail at those explicit inputs. -/
theorem C7_counterexample :
    calculate_metaphor_weight MetaphorLevel.META_METAPHOR MetaphorType.ONTOLOGICAL 0
      = calculate_metaphor_weight MetaphorLevel.SCIENTIFIC_METAPHOR
          MetaphorType.ONTOLOGICAL 0
    ∧ calculate_metaphor_weight MetaphorLevel.EXPLICIT_TERM MetaphorType.ONTOLOGICAL 2
      = calculate_metaphor_weight MetaphorLevel.META_METAPHOR
          MetaphorType.ONTOLOGICAL 2 := by
  exact ⟨by decide, by decide⟩

/-- C7 amended: for every context_relevance in the half-open interval
(0, 1] (the range the semantic-field scorer can produce) and every fixed
metaphor type, the strict orderings weight(meta) > weight(scientific) >
weight(nested) and weight(explicit) > weight(meta) hold. -/
theorem C7_amended_weight_ordering (c : ℚ) (mt : MetaphorType)
    (h0 : 0 < c) (h1 : c ≤ 1) :
    calculate_metaphor_weight MetaphorLevel.SCIENTIFIC_METAPHOR mt c
      < calculate_metaphor_weight MetaphorLevel.META_METAPHOR mt c
    ∧ calculate_metaphor_weight MetaphorLevel.NESTED_METAPHOR mt c
      < calculate_metaphor_weight MetaphorLevel.SCIENTIFIC_METAPHOR mt c
    ∧ calculate_metaphor_weight MetaphorLevel.META_METAPHOR mt c
      < calculate_metaphor_weight MetaphorLevel.EXPLICIT_TERM mt c := by
  have key : ∀ x y : ℚ, x < y → x < 1 → min x 1 < min y 1 := by
    intro x y hxy hx1
    rcases le_total y 1 with hy | hy
    · rw [min_eq_left (le_of_lt hx1), min_eq_left hy]
      exact hxy
    · rw [min_eq_left (le_of_lt hx1), min_eq_right hy]
      exact hx1
  unfold calculate_metaphor_weight level_weight type_multiplier
  cases mt <;>
    exact ⟨key _ _ (by nlinarith) (by nlinarith),
           key _ _ (by nlinarith) (by nlinarith),
           key _ _ (by nlinarith) (by nlinarith)⟩

/-- C7 witness: the amended orderings at context_relevance 1 and the
ontological type. -/
theorem C7_amended_weight_ordering_witness :
    calculate_metaphor_weight MetaphorLevel.SCIENTIFIC_METAPHOR
        MetaphorType.ONTOLOGICAL 1
      < calculate_metaphor_weight MetaphorLevel.META_METAPHOR
          MetaphorType.ONTOLOGICAL 1
    ∧ calculate_metaphor_weight MetaphorLevel.NESTED_METAPHOR
        MetaphorType.ONTOLOGICAL 1
      < calculate_metaphor_weight MetaphorLevel.SCIENTIFIC_METAPHOR
          MetaphorType.ONTOLOGICAL 1
    ∧ calculate_metaphor_weight MetaphorLevel.META_METAPHOR
        MetaphorType.ONTOLOGICAL 1
      < calculate_metaphor_weight MetaphorLevel.EXPLICIT_TERM
          MetaphorType.ONTOLOGICAL 1 :=
  C7_amended_weight_ordering 1 MetaphorType.ONTOLOGICAL (by norm_num) (by norm_num)

/-- C10 counterexample: a non-string input to either scoring function
raises `AttributeError` (Python calls `.lower()` on it), so the claim that
non-text input never raises and yields an empty evidence sequence is
false. -/
theorem C10_counterexample :
    extract_metaphors_py PyObj.PyNone = Except.error "AttributeError"
    ∧ identify_semantic_field_py PyObj.PyNone = Except.error "AttributeError" :=
  ⟨rfl, rfl⟩

/-- C10 amended: empty text input is treated as "no evidence" (no
exception, empty evidence sequence), while non-string input raises an
invalid-input `AttributeError` as §4.6 of the specification states. -/
theorem C10_amended_empty_ok_nonstring_raises :
    extract_metaphors "" = []
    ∧ identify_semantic_field "" = []
    ∧ extract_metaphors_py (PyObj.PyStr "") = Except.ok []
    ∧ identify_semantic_field_py (PyObj.PyStr "") = Except.ok []
    ∧ extract_metaphors_py PyObj.PyNone = Except.error "AttributeError"
    ∧ identify_semantic_field_py PyObj.PyNone = Except.error "AttributeError"
    ∧ (∀ n : Int, extract_metaphors_py (PyObj.PyInt n)
        = Except.error "AttributeError") := by
  have hext : extract_metaphors "" = [] := by decide
  have hid : identify_semantic_field "" = [] := by decide
  exact ⟨hext, hid, congrArg Except.ok hext, congrArg Except.ok hid,
    rfl, rfl, fun n => rfl⟩

end MetaphorAnalysis
